import Mathlib

/-!
Verification of the live transcription session pipeline of
`parakeet-mlx_guiapi` (files `parakeet_mlx_guiapi/live/session.py` and
`parakeet_mlx_guiapi/live/websocket_handler.py`).

Modelling conventions:
* Python strings are modelled as `List Char` (`Str`); Python `str.split`,
  `str.startswith`, f-string formatting and `int()` digit parsing are
  implemented directly on character lists.
* Python floats are modelled as exact rationals `ℚ` (the decision logic of
  the code is arithmetic comparison; we abstract IEEE rounding away).
* Python dicts (which are insertion ordered) are modelled as association
  lists with unique keys: lookup finds the first matching key, assignment to
  a fresh key appends at the end, assignment to an existing key updates the
  value in place.
* External collaborators (the speech-to-text provider, the torchaudio /
  speechbrain embedding extraction, the pyannote local diarizer and the
  floating point cosine-similarity kernel `np.dot(a,b)/(|a|*|b|)` computed
  from them) are abstracted as oracle parameters; the orchestration logic
  that consumes their outputs is embedded from the source line by line.
* The worker thread of `websocket_handler.py` is modelled as a small-step
  labelled transition system over an explicit program counter, so that the
  interleaving of the receive loop (`add_chunk`, `stop`) with the worker
  loop is captured faithfully.
-/

/-- Python strings as lists of characters. -/
abbrev Str := List Char

/-- Coerce a Lean string literal to the `Str` representation. -/
def str (s : String) : Str := s.toList

/-- An embedding vector (numpy array of floats) as a list of rationals. -/
abbrev Emb := List ℚ

/-- First-match lookup in an insertion-ordered association list
(Python `d[k]` / `d.get(k)` / `k in d`). -/
def alookup {α : Type} : List (Str × α) → Str → Option α
  | [], _ => none
  | (k, v) :: rest, key => if k = key then some v else alookup rest key

/-- In-place value update of an existing key (Python `d[k] = v` for a key
that is already present keeps its position). -/
def aupdate {α : Type} (l : List (Str × α)) (key : Str) (f : α → α) : List (Str × α) :=
  l.map (fun p => if p.1 = key then (p.1, f p.2) else p)

/-- Index of a key in the insertion order of an association list
(Python `list(d.keys()).index(k)`). -/
def aindex {α : Type} : List (Str × α) → Str → Option ℕ
  | [], _ => none
  | (k, _) :: rest, key =>
    if k = key then some 0 else (aindex rest key).map (· + 1)

/-- The decimal digit character for `d < 10` (Python rendering of one digit). -/
def digitChar (d : ℕ) : Char := Char.ofNat (48 + d)

/-- Decimal rendering of a natural number, most significant digit first
(Python `str(n)` for a non-negative int). -/
def natToDecAux (n : ℕ) : Str :=
  if _h : n < 10 then [digitChar n]
  else natToDecAux (n / 10) ++ [digitChar (n % 10)]
  decreasing_by exact Nat.div_lt_self (by omega) (by omega)

/-- Python `f"{n:02d}"`: decimal rendering padded with a leading zero to
width two. -/
def pad2chars (n : ℕ) : Str := if n < 10 then '0' :: natToDecAux n else natToDecAux n

/-- Numeric value of a decimal digit character, if it is one. -/
def decDigit? (c : Char) : Option ℕ :=
  if 48 ≤ c.toNat ∧ c.toNat ≤ 57 then some (c.toNat - 48) else none

/-- Accumulating decimal parser over a digit string. -/
def parseDecFrom (a : ℕ) : Str → Option ℕ
  | [] => some a
  | c :: rest =>
    match decDigit? c with
    | some d => parseDecFrom (10 * a + d) rest
    | none => none

/-- Python `int(s)` restricted to non-empty all-digit strings (the only
inputs the session ever feeds it: the numeric suffixes of speaker ids;
`int` fails on anything else, modelled by `none`). -/
def parseDec : Str → Option ℕ
  | [] => none
  | c :: rest => parseDecFrom 0 (c :: rest)

/-- Split a character list at every character satisfying `p`
(Python `s.split("_")` with the single-character separator `'_'`). -/
def splitOnPred (p : Char → Bool) : Str → List Str
  | [] => [[]]
  | c :: rest =>
    if p c then [] :: splitOnPred p rest
    else
      match splitOnPred p rest with
      | [] => [[c]]
      | g :: gs => (c :: g) :: gs

/-- Python whitespace class `\s` over ASCII (space, tab, LF, VT, FF, CR). -/
def isPySpace (c : Char) : Bool :=
  c = ' ' ∨ c = '\t' ∨ c = '\n' ∨ c = '\r' ∨ c.toNat = 11 ∨ c.toNat = 12

/-- Remove every (non-overlapping, left-to-right) occurrence of the literal
token `<unk>`, as `re.sub(r'<unk>', '', text)` does. -/
def removeUnk : Str → Str
  | [] => []
  | c :: rest =>
    if (str "<unk>").isPrefixOf (c :: rest) then removeUnk (rest.drop 4)
    else c :: removeUnk rest
  termination_by l => l.length
  decreasing_by
  · have := List.length_drop 4 rest
    simp only [List.length_cons]
    omega
  · simp only [List.length_cons]
    omega

/-- `clean_transcription_text` of `session.py`: drop `<unk>` tokens, then
collapse every whitespace run to a single space and strip the ends
(`re.sub(r'\s+', ' ', cleaned).strip()`). -/
def cleanTranscriptionText (text : Str) : Str :=
  let noUnk := removeUnk text
  List.intercalate (str " ") ((splitOnPred isPySpace noUnk).filter (· ≠ []))

/-! ## Data model (`providers/base.py`, `diarization/diarizer.py`, `session.py`) -/

/-- `ProviderType` of `providers/base.py`: the local Parakeet provider and
the cloud Deepgram provider. -/
inductive ProviderType
  | parakeet
  | deepgram
  deriving DecidableEq

/-- `TranscriptionSegment` of `providers/base.py` (`end` is a Lean keyword,
rendered `stop`). -/
structure TranscriptionSegment where
  text : Str
  start : ℚ
  stop : ℚ
  speaker : Option Str := none
  confidence : Option ℚ := none
  deriving DecidableEq, Inhabited

/-- `TranscriptionResult` of `providers/base.py`. -/
structure TranscriptionResult where
  segments : List TranscriptionSegment
  full_text : Str
  language : Option Str := none
  duration : Option ℚ := none
  deriving DecidableEq

/-- `SpeakerSegment` of `diarization/diarizer.py`. -/
structure SpeakerSegment where
  speaker : Str
  start : ℚ
  stop : ℚ
  deriving DecidableEq

/-- `DiarizationResult` of `diarization/diarizer.py`. -/
structure DiarizationResult where
  segments : List SpeakerSegment
  num_speakers : ℕ
  deriving DecidableEq

/-- `DiarizationResult.get_speaker_at_time`: the speaker of the first turn
whose closed interval contains `t`. -/
def getSpeakerAtTime (d : DiarizationResult) (t : ℚ) : Option Str :=
  (d.segments.find? (fun s => decide (s.start ≤ t ∧ t ≤ s.stop))).map (·.speaker)

/-- `DiarizationResult._find_closest_speaker`: the speaker of the turn whose
nearer boundary is closest to `t` (Python `min` keeps the first minimum). -/
def findClosestSpeaker (d : DiarizationResult) (t : ℚ) : Option Str :=
  match d.segments with
  | [] => none
  | s :: rest =>
    let key := fun (x : SpeakerSegment) => min |x.start - t| |x.stop - t|
    some ((rest.foldl (fun best x => if key x < key best then x else best) s).speaker)

/-- `TranscriptionMessage` of `session.py`. The wall-clock `timestamp`
field (`datetime.now()`) is nondeterministic and not consulted by any of
the verified operations, so it is omitted. -/
structure TranscriptionMessage where
  speaker : Str
  speaker_id : Str
  text : Str
  start_time : ℚ
  end_time : ℚ
  color : Str
  deriving DecidableEq

/-- `SPEAKER_COLORS` of `session.py`: the fixed eight-entry palette. -/
def SPEAKER_COLORS : List Str :=
  [str "#E3F2FD", str "#FFF3E0", str "#E8F5E9", str "#FCE4EC",
   str "#F3E5F5", str "#FFFDE7", str "#E0F7FA", str "#FBE9E7"]

/-- The session's `provider_config` dict, restricted to the keys the
verified code paths read: `model` (Deepgram) and `model_name` (Parakeet).
API keys, tokens and Deepgram options are opaque pass-through data. -/
structure ProviderConfig where
  model : Option Str := none
  model_name : Option Str := none
  deriving DecidableEq

/-- The mutable state of `LiveTranscriptionSession`. Lazy provider /
diarizer / embedding-model handles are external resources and do not
appear; `_last_diarization_info` is a logging-only diagnostic and
`_next_speaker_num` is written once and never read, so both are omitted. -/
structure SessionState where
  session_id : Str
  enable_diarization : Bool
  provider_type : ProviderType
  provider_config : ProviderConfig
  speaker_color_map : List (Str × Str)
  messages : List TranscriptionMessage
  time_offset : ℚ
  speaker_embeddings : List (Str × Emb)
  next_global_speaker_id : ℕ
  embedding_similarity_threshold : ℚ
  deriving DecidableEq

/-- `LiveTranscriptionSession.__init__`: fresh per-connection state; the
similarity threshold defaults to `0.45`. -/
def initSession (session_id : Str) (enable_diarization : Bool)
    (provider_type : ProviderType) (provider_config : ProviderConfig) : SessionState :=
  { session_id := session_id
    enable_diarization := enable_diarization
    provider_type := provider_type
    provider_config := provider_config
    speaker_color_map := []
    messages := []
    time_offset := 0
    speaker_embeddings := []
    next_global_speaker_id := 0
    embedding_similarity_threshold := 9 / 20 }

/-- `LiveTranscriptionSession.clear`. -/
def clearSession (st : SessionState) : SessionState :=
  { st with messages := [], speaker_color_map := [], time_offset := 0,
            speaker_embeddings := [], next_global_speaker_id := 0 }

/-- The external collaborators consumed by `process_audio_chunk`, per chunk:
the cosine-similarity kernel (floating point `np.dot(a,b)/(|a|·|b|)`), the
result of `_extract_speaker_embedding` for a requested time range of the
chunk audio (`none` models every internal failure path of that helper,
including ranges shorter than 0.5 s), and the outcome of the local pyannote
diarizer on the chunk (`none` models "unavailable" and exceptions). -/
structure Oracles where
  sim : Emb → Emb → ℚ
  extractEmbedding : ℚ → ℚ → Option Emb
  localDiarize : Option DiarizationResult

/-! ## Speaker identity tracker (`session.py` lines 219-282) -/

/-- The f-string `f"GLOBAL_SPEAKER_{self._next_global_speaker_id:02d}"`. -/
def globalSpeakerLabel (n : ℕ) : Str := str "GLOBAL_SPEAKER_" ++ pad2chars n

/-- `new = old * 0.8 + embedding * 0.2`, componentwise on numpy vectors. -/
def smoothEmbedding (old obs : Emb) : Emb :=
  List.zipWith (fun o e => o * (4 / 5) + e * (1 / 5)) old obs

/-- One iteration of the best-match scan of
`LiveTranscriptionSession._match_speaker_to_known`: keep the candidate with
the strictly larger similarity. -/
def bestScanStep (sim : Emb → Emb → ℚ) (embedding : Emb)
    (best : Option Str × ℚ) (p : Str × Emb) : Option Str × ℚ :=
  let s := sim embedding p.2
  if best.2 < s then (some p.1, s) else best

/-- `LiveTranscriptionSession._match_speaker_to_known`: scan every stored
identity, keeping the strictly best similarity found so far (start value
`0.0`); report the best identity if its similarity clears the threshold. -/
def matchSpeakerToKnown (sim : Emb → Emb → ℚ) (st : SessionState)
    (embedding : Emb) : Option Str × ℚ :=
  if st.speaker_embeddings = [] then (none, 0)
  else
    let best := st.speaker_embeddings.foldl (bestScanStep sim embedding)
      ((none : Option Str), (0 : ℚ))
    if st.embedding_similarity_threshold ≤ best.2 then (best.1, best.2)
    else (none, best.2)

/-- The shared tail of `_get_or_create_global_speaker_id`: mint
`GLOBAL_SPEAKER_{next:02d}`, bump the counter, and store the observed
embedding under the new identity when one was extracted. -/
def mintGlobalSpeakerId (st : SessionState) (embedding : Option Emb) :
    Str × SessionState :=
  let gid := globalSpeakerLabel st.next_global_speaker_id
  let st := { st with next_global_speaker_id := st.next_global_speaker_id + 1 }
  match embedding with
  | some emb =>
    (gid, { st with speaker_embeddings := st.speaker_embeddings ++ [(gid, emb)] })
  | none => (gid, st)

/-- `LiveTranscriptionSession._get_or_create_global_speaker_id`. On a match
the stored vector is smoothed in place (`d[k] = d[k]*0.8 + obs*0.2`); the
Python truthiness test `if matched_id:` coincides with an `Option` match
because identity keys are never the empty string. -/
def getOrCreateGlobalSpeakerId (sim : Emb → Emb → ℚ) (st : SessionState)
    (embedding : Option Emb) : Str × SessionState :=
  match embedding with
  | some emb =>
    match (matchSpeakerToKnown sim st emb).1 with
    | some matched_id =>
      (matched_id,
        { st with speaker_embeddings :=
            aupdate st.speaker_embeddings matched_id (fun old => smoothEmbedding old emb) })
    | none => mintGlobalSpeakerId st (some emb)
  | none => mintGlobalSpeakerId st none

/-- `LiveTranscriptionSession.get_speaker_color`: first lookup of an unseen
id appends it to the insertion-ordered color map with color
`SPEAKER_COLORS[len(map) % len(SPEAKER_COLORS)]`. -/
def getSpeakerColor (st : SessionState) (speaker_id : Str) : Str × SessionState :=
  match alookup st.speaker_color_map speaker_id with
  | some c => (c, st)
  | none =>
    let c := SPEAKER_COLORS.getD (st.speaker_color_map.length % SPEAKER_COLORS.length) []
    (c, { st with speaker_color_map := st.speaker_color_map ++ [(speaker_id, c)] })

/-- `int(speaker_id.split("_")[-1])` of `get_speaker_name` (the ids fed to
it are underscore-separated with an all-digit final component; on anything
else `int` raises and the code falls through, modelled by `none`). -/
def parseSpeakerNum (speaker_id : Str) : Option ℕ :=
  parseDec (((splitOnPred (fun c => c = '_')) speaker_id).getLastD [])

/-- `LiveTranscriptionSession.get_speaker_name`: ensure a color is
registered (a mutation!), then derive the display name from the numeric
suffix of a `GLOBAL_SPEAKER_` / `SPEAKER_` id, falling back to the id's
position in the color map, then to the raw id. -/
def getSpeakerName (st : SessionState) (speaker_id : Str) : Str × SessionState :=
  let st :=
    if (alookup st.speaker_color_map speaker_id).isNone then (getSpeakerColor st speaker_id).2
    else st
  let viaG :=
    if (str "GLOBAL_SPEAKER_").isPrefixOf speaker_id then parseSpeakerNum speaker_id else none
  let viaPfx :=
    match viaG with
    | some n => some n
    | none =>
      if (str "SPEAKER_").isPrefixOf speaker_id then parseSpeakerNum speaker_id else none
  match viaPfx with
  | some n => (str "Speaker " ++ natToDecAux (n + 1), st)
  | none =>
    match aindex st.speaker_color_map speaker_id with
    | some i => (str "Speaker " ++ natToDecAux (i + 1), st)
    | none => (speaker_id, st)

/-! ## Diarization merge / fallback and chunk processing (`session.py` lines 284-505) -/

/-- `self.provider_type == ProviderType.PARAKEET` etc.;
`LiveTranscriptionSession._needs_local_diarization`: cloud provider,
diarization enabled, more than one segment, and a single distinct speaker
label (`set(...)` sizes modelled with `List.dedup`). -/
def needsLocalDiarization (st : SessionState) (result : TranscriptionResult) : Bool :=
  if st.provider_type = ProviderType.parakeet then false
  else if !st.enable_diarization then false
  else if result.segments.length ≤ 1 then false
  else if 1 < ((result.segments.map (·.speaker)).dedup).length then false
  else true

/-- `LiveTranscriptionSession._apply_local_diarization`: when the local
diarizer is available and reports more than one speaker, relabel each
transcription segment with the speaker of the diarization turn containing
its temporal midpoint, else the nearest turn; a falsy local label (none or
empty) keeps the provider's label. -/
def applyLocalDiarization (O : Oracles) (result : TranscriptionResult) :
    TranscriptionResult :=
  match O.localDiarize with
  | none => result
  | some d =>
    if d.num_speakers ≤ 1 then result
    else
      let updated := result.segments.map (fun seg =>
        let mid := (seg.start + seg.stop) / 2
        let spk :=
          match getSpeakerAtTime d mid with
          | some s => some s
          | none => findClosestSpeaker d mid
        { seg with speaker :=
            match spk with
            | some s => if s = [] then seg.speaker else some s
            | none => seg.speaker })
      { result with segments := updated }

/-- `speaker = seg.speaker or "Unknown"` in the grouping loop of
`_apply_cross_chunk_speaker_tracking` (Python `or` also catches the empty
string). -/
def segGroupKey (seg : TranscriptionSegment) : Str :=
  match seg.speaker with
  | some s => if s = [] then str "Unknown" else s
  | none => str "Unknown"

/-- Append a segment to its label's group, creating the group at the end on
first appearance (Python dict-of-lists building). -/
def addToGroups (gs : List (Str × List TranscriptionSegment)) (k : Str)
    (s : TranscriptionSegment) : List (Str × List TranscriptionSegment) :=
  match gs with
  | [] => [(k, [s])]
  | (k', l) :: rest =>
    if k' = k then (k', l ++ [s]) :: rest else (k', l) :: addToGroups rest k s

/-- The `speaker_segments` dict of `_apply_cross_chunk_speaker_tracking`:
segments grouped by local label in first-appearance order. -/
def groupBySpeaker (segs : List TranscriptionSegment) :
    List (Str × List TranscriptionSegment) :=
  segs.foldl (fun gs s => addToGroups gs (segGroupKey s) s) []

/-- `max(segs, key=lambda s: s.end - s.start)`: the first segment of
maximal duration (Python `max` keeps the earliest maximum). -/
def longestSegment : List TranscriptionSegment → TranscriptionSegment
  | [] => default
  | s :: rest =>
    rest.foldl (fun best x => if best.stop - best.start < x.stop - x.start then x else best) s

/-- `LiveTranscriptionSession._apply_cross_chunk_speaker_tracking`: for each
local-label group extract one embedding over the longest segment's time
range, resolve it to a global identity, then relabel every segment whose
(raw) speaker string has a mapping. Besides the updated result and state we
return the list of `(start, end)` ranges passed to
`_extract_speaker_embedding`, in call order, as an observation of which
audio range the code selects — this instrumentation does not influence the
computation. The body of the per-group loop is `crossChunkStep`: pick the
longest segment of the group, extract an embedding over its range, resolve
a global identity. -/
def crossChunkStep (O : Oracles)
    (acc : List (Str × Str) × SessionState × List (ℚ × ℚ))
    (g : Str × List TranscriptionSegment) :
    List (Str × Str) × SessionState × List (ℚ × ℚ) :=
  let longest := longestSegment g.2
  let emb := O.extractEmbedding longest.start longest.stop
  let (gid, st') := getOrCreateGlobalSpeakerId O.sim acc.2.1 emb
  (acc.1 ++ [(g.1, gid)], st', acc.2.2 ++ [(longest.start, longest.stop)])

def applyCrossChunkSpeakerTracking (O : Oracles) (st : SessionState)
    (result : TranscriptionResult) :
    TranscriptionResult × SessionState × List (ℚ × ℚ) :=
  let groups := groupBySpeaker result.segments
  let acc := groups.foldl (crossChunkStep O) ([], st, [])
  let local_to_global := acc.1
  let segs := result.segments.map (fun seg =>
    match seg.speaker with
    | some sp =>
      match alookup local_to_global sp with
      | some gid => { seg with speaker := some gid }
      | none => seg
    | none => seg)
  ({ result with segments := segs }, acc.2.1, acc.2.2)

/-- `speaker_id = seg.speaker or "SPEAKER_00"` in the message loop of
`process_audio_chunk`. -/
def messageSpeakerId (seg : TranscriptionSegment) : Str :=
  match seg.speaker with
  | some s => if s = [] then str "SPEAKER_00" else s
  | none => str "SPEAKER_00"

/-- The message-construction loop of `process_audio_chunk` (steps 5-6 of
the pipeline): skip segments whose cleaned text is empty, resolve display
name and color (both may register a color — name first, exactly as the
Python keyword arguments evaluate), shift times by the chunk offset, append
to the session history and to the returned batch. -/
def buildMessages (st : SessionState) (segs : List TranscriptionSegment)
    (chunk_start_time : ℚ) : List TranscriptionMessage × SessionState :=
  segs.foldl
    (fun (acc : List TranscriptionMessage × SessionState) seg =>
      let cleaned := cleanTranscriptionText seg.text
      if cleaned = [] then acc
      else
        let speaker_id := messageSpeakerId seg
        let (name, st1) := getSpeakerName acc.2 speaker_id
        let (color, st2) := getSpeakerColor st1 speaker_id
        let msg : TranscriptionMessage :=
          { speaker := name, speaker_id := speaker_id, text := cleaned,
            start_time := chunk_start_time + seg.start,
            end_time := chunk_start_time + seg.stop, color := color }
        (acc.1 ++ [msg], { st2 with messages := st2.messages ++ [msg] }))
    ([], st)

/-- Observation record for one `process_audio_chunk` call: whether the
local-diarization fallback was invoked, and the audio ranges handed to the
embedding extractor. Pure instrumentation, no influence on the result. -/
structure ProcessTrace where
  fallbackInvoked : Bool
  extractCalls : List (ℚ × ℚ)
  deriving DecidableEq

/-- Result of one `process_audio_chunk` call: the returned message batch,
the session state after the call, and the observation trace. -/
structure ProcessOutcome where
  output : List TranscriptionMessage
  state : SessionState
  trace : ProcessTrace
  deriving DecidableEq

/-- `LiveTranscriptionSession.process_audio_chunk`, with the provider's
`transcribe_bytes` answer for this chunk supplied as `result` (the provider
is an external collaborator; audio decoding and the temp file are I/O).
Empty provider results return an empty batch before any state is touched;
with diarization enabled the fallback check and cross-chunk tracking run
first; finally the message loop appends to the history. -/
def processAudioChunk (O : Oracles) (st : SessionState)
    (result : TranscriptionResult) (chunk_start_time : ℚ) : ProcessOutcome :=
  if result.segments = [] then
    { output := [], state := st, trace := { fallbackInvoked := false, extractCalls := [] } }
  else
    let fallback := st.enable_diarization && needsLocalDiarization st result
    let step :=
      if st.enable_diarization then
        let r1 := if needsLocalDiarization st result then applyLocalDiarization O result else result
        applyCrossChunkSpeakerTracking O st r1
      else (result, st, [])
    let built := buildMessages step.2.1 step.1.segments chunk_start_time
    { output := built.1, state := built.2,
      trace := { fallbackInvoked := fallback, extractCalls := step.2.2 } }

/-! ## Export (`session.py` lines 507-542) -/

/-- One output paragraph `f"{current_speaker}: {' '.join(current_texts)}"`
(`current_speaker` is always set when texts are pending; Python would
render a `None` speaker as `"None"`). -/
def exportLine (cs : Option Str) (texts : List Str) : Str :=
  (match cs with | some s => s | none => str "None") ++ str ": " ++
    List.intercalate (str " ") texts

/-- The grouping loop of `export_txt` over the message history, carrying
the current speaker and their pending texts. -/
def exportTxtLoop : List TranscriptionMessage → Option Str → List Str → List Str
  | [], cs, cts => if cts = [] then [] else [exportLine cs cts]
  | m :: rest, cs, cts =>
    if some m.speaker ≠ cs then
      (if cts = [] then [] else [exportLine cs cts, []]) ++
        exportTxtLoop rest (some m.speaker) [m.text]
    else exportTxtLoop rest cs (cts ++ [m.text])

/-- `LiveTranscriptionSession.export_txt`: consecutive same-speaker
messages merge into one paragraph, one blank line between paragraphs. -/
def exportTxt (st : SessionState) : Str :=
  List.intercalate (str "\n") (exportTxtLoop st.messages none [])

/-- Truncation toward zero, Python `int(x)` on a float. -/
def pyInt (q : ℚ) : ℤ := q.num / q.den

/-- Python `f"{n:02d}"` / `f"{n:03d}"` for the (non-negative) time
components produced by `format_time`. -/
def padWidth (w : ℕ) (n : ℤ) : Str :=
  let digits := natToDecAux n.toNat
  List.replicate (w - digits.length) '0' ++ digits

/-- `format_time` inside `export_srt`:
`HH:MM:SS,mmm` from a time in seconds (`//` is floor division, `%` the
Python modulo; both are exact here because times are rationals). -/
def formatTimeSRT (seconds : ℚ) : Str :=
  let hours := pyInt ⌊seconds / 3600⌋
  let minutes := pyInt ⌊(seconds - 3600 * ⌊seconds / 3600⌋) / 60⌋
  let secs := pyInt (seconds - 60 * ⌊seconds / 60⌋)
  let millis := pyInt ((seconds - ⌊seconds⌋) * 1000)
  padWidth 2 hours ++ str ":" ++ padWidth 2 minutes ++ str ":" ++
    padWidth 2 secs ++ str "," ++ padWidth 3 millis

/-- `LiveTranscriptionSession.export_srt`: one numbered cue per message,
text prefixed with the bracketed speaker name. -/
def exportSrt (st : SessionState) : Str :=
  let cues := (List.enumFrom 1 st.messages).map (fun p =>
    [natToDecAux p.1, formatTimeSRT p.2.start_time ++ str " --> " ++ formatTimeSRT p.2.end_time,
     str "[" ++ p.2.speaker ++ str "] " ++ p.2.text, []])
  List.intercalate (str "\n") cues.flatten

/-! ## Connection handler: config messages and provider hot-swap
(`websocket_handler.py` lines 292-364) -/

/-- A parsed client `config` message (`enable_diarization`,
`similarity_threshold`, `provider`, `model`; an unparseable provider string
is answered with an error event and performs no swap, so it is rejected
before this point). -/
structure ConfigMessage where
  enable_diarization : Option Bool := none
  similarity_threshold : Option ℚ := none
  provider : Option ProviderType := none
  model : Option Str := none

/-- `provider_changed or model_changed` guard of the config handler
(`new_model and new_model != session.provider_config.get('model')`; Python
`and` also treats the empty string as no model). -/
def swapNeeded (st : SessionState) (new_provider : ProviderType)
    (new_model : Option Str) : Bool :=
  (new_provider ≠ st.provider_type) ||
    (match new_model with
     | none => false
     | some m => if m = [] then false else m ≠ (st.provider_config.model).getD (str "\x00"))

/-- The `new_config` dict built by the handler for the target provider
(`model_name` for Parakeet, `model` for Deepgram; keys and tokens are
opaque). -/
def newSwapConfig (new_provider : ProviderType) (new_model : Option Str) : ProviderConfig :=
  match new_provider with
  | ProviderType.parakeet => { model_name := new_model }
  | ProviderType.deepgram => { model := new_model }

/-- The provider hot-swap of the config handler: build a brand-new session
with the same id and diarization flag, then copy over the prior messages,
the color map, the stored speaker embeddings and the identity counter; the
worker's session reference is then atomically repointed at the result. -/
def performProviderSwap (st : SessionState) (new_provider : ProviderType)
    (new_model : Option Str) : SessionState :=
  let fresh := initSession st.session_id st.enable_diarization new_provider
    (newSwapConfig new_provider new_model)
  { fresh with
    messages := st.messages
    speaker_color_map := st.speaker_color_map
    speaker_embeddings := st.speaker_embeddings
    next_global_speaker_id := st.next_global_speaker_id }

/-- The `provider` branch of the config handler, including its change
guard. -/
def applyProviderChange (st : SessionState) (new_provider : ProviderType)
    (new_model : Option Str) : SessionState :=
  if swapNeeded st new_provider new_model then performProviderSwap st new_provider new_model
  else st

/-- The whole `config` message handler: `enable_diarization` and
`similarity_threshold` mutate the current session in place, then a
`provider` key may hot-swap the session object. -/
def handleConfigMessage (st : SessionState) (m : ConfigMessage) : SessionState :=
  let st :=
    match m.enable_diarization with
    | some b => { st with enable_diarization := b }
    | none => st
  let st :=
    match m.similarity_threshold with
    | some x => { st with embedding_similarity_threshold := x }
    | none => st
  match m.provider with
  | some p => applyProviderChange st p m.model
  | none => st

/-! ## The queued worker (`websocket_handler.py` lines 55-179) as a
labelled transition system.

The receive loop and the worker thread interleave; the atomic actions are:
`add_chunk` (receive loop, appends to the FIFO), `stop` (receive loop
teardown: clears `running`, then enqueues the `None` sentinel), the
worker's `while self.running` check, one `queue.get` (returning the head
item, the sentinel, or timing out on an empty queue), and the processing of
one dequeued chunk ending with the publication of its `transcription` (or
`error`) event. Status/debug messages carry no chunk results and are not
recorded. `enqueued` is a ghost log of chunk numbers in arrival order. -/

/-- Program counter of the worker thread's `_process_loop`. -/
inductive WorkerPC
  | loopTop
  | getItem
  | processing (chunk : ℕ)
  | halted
  deriving DecidableEq

/-- Joint state of one session's worker and its FIFO. `events` records the
per-chunk result events sent so far (`true` = `transcription`,
`false` = `error`), `queue` the pending items (`none` = sentinel). -/
structure WorkerState where
  running : Bool
  queue : List (Option ℕ)
  pc : WorkerPC
  events : List (ℕ × Bool)
  enqueued : List ℕ
  deriving DecidableEq

/-- State after `TranscriptionWorker.__init__`: worker parked at the top of
its loop, empty queue, nothing emitted. -/
def workerInit : WorkerState :=
  { running := true, queue := [], pc := .loopTop, events := [], enqueued := [] }

/-- One atomic step of the interleaved receive-loop/worker system. -/
inductive WorkerStep : WorkerState → WorkerState → Prop
  | add_chunk (st : WorkerState) (c : ℕ) (h : st.running = true) :
      WorkerStep st { st with queue := st.queue ++ [some c], enqueued := st.enqueued ++ [c] }
  | stop (st : WorkerState) (h : st.running = true) :
      WorkerStep st { st with running := false, queue := st.queue ++ [none] }
  | check_true (st : WorkerState) (h : st.running = true) (hpc : st.pc = .loopTop) :
      WorkerStep st { st with pc := .getItem }
  | check_false (st : WorkerState) (h : st.running = false) (hpc : st.pc = .loopTop) :
      WorkerStep st { st with pc := .halted }
  | get_empty (st : WorkerState) (hpc : st.pc = .getItem) (hq : st.queue = []) :
      WorkerStep st { st with pc := .loopTop }
  | get_sentinel (st : WorkerState) (rest : List (Option ℕ)) (hpc : st.pc = .getItem)
      (hq : st.queue = none :: rest) :
      WorkerStep st { st with queue := rest, pc := .halted }
  | get_chunk (st : WorkerState) (c : ℕ) (rest : List (Option ℕ)) (hpc : st.pc = .getItem)
      (hq : st.queue = some c :: rest) :
      WorkerStep st { st with queue := rest, pc := .processing c }
  | publish (st : WorkerState) (c : ℕ) (ok : Bool) (hpc : st.pc = .processing c) :
      WorkerStep st { st with pc := .loopTop, events := st.events ++ [(c, ok)] }

/-- States reachable from a fresh worker. -/
def WorkerReachable (st : WorkerState) : Prop :=
  Relation.ReflTransGen WorkerStep workerInit st

/-- The chunk the worker currently holds, if any. -/
def inFlight : WorkerPC → List ℕ
  | .processing c => [c]
  | _ => []

/-- Chunk numbers of the published result events, in publication order. -/
def publishedChunks (st : WorkerState) : List ℕ := st.events.map Prod.fst

/-- FIFO content restricted to real chunks. -/
def queuedChunks (st : WorkerState) : List ℕ := st.queue.filterMap id

/-! ## Spec-side definition for the embedding-range claim (C5) -/

/-- Modelled from the spec: "For each local-label group, select the longest
contiguous time range (if the longest sub-segment is under 1 second, grow
the range to the union of all segments under that label to get enough
signal)." The union of the group's segments is its spanning range. This
definition follows the spec's words; the code's actual selection is the
range `applyCrossChunkSpeakerTracking` passes to the extractor. -/
def specEmbeddingRange (segs : List TranscriptionSegment) : ℚ × ℚ :=
  let longest := longestSegment segs
  if longest.stop - longest.start < 1 then
    ((segs.map (·.start)).foldl min longest.start,
     (segs.map (·.stop)).foldl max longest.stop)
  else (longest.start, longest.stop)

/-! ## Shared concrete fixtures -/

/-- An oracle for runs in which no external call matters. -/
def oracleTrivial : Oracles :=
  { sim := fun _ _ => 0, extractEmbedding := fun _ _ => none, localDiarize := none }

/-- A fresh local-provider session with diarization enabled. -/
def sessionP : SessionState := initSession (str "s1") true ProviderType.parakeet {}

/-! ## C7: empty provider results -/

/-- C7: a chunk whose provider call returns zero segments makes
`process_audio_chunk` return an empty message batch, with the session state
(history, identities, embeddings, colors) completely unchanged and no
fallback or extraction activity; no error is raised (the function returns
normally). -/
theorem claim_C7_empty_result (O : Oracles) (st : SessionState)
    (result : TranscriptionResult) (t : ℚ) (h : result.segments = []) :
    processAudioChunk O st result t =
      { output := [], state := st, trace := { fallbackInvoked := false, extractCalls := [] } } := by
  simp [processAudioChunk, h]

/-- C7 witness: the theorem applied to a concrete empty provider result. -/
theorem claim_C7_empty_result_witness :
    processAudioChunk oracleTrivial sessionP { segments := [], full_text := [] } 0 =
      { output := [], state := sessionP,
        trace := { fallbackInvoked := false, extractCalls := [] } } :=
  claim_C7_empty_result oracleTrivial sessionP { segments := [], full_text := [] } 0 rfl

/-! ## C9: text export merging, purity, empty session -/

/-- The session of the spec's export example: three messages, the first two
from "Speaker 1". -/
def exportDemoSession : SessionState :=
  { sessionP with
    messages :=
      [ { speaker := str "Speaker 1", speaker_id := str "GLOBAL_SPEAKER_00",
          text := str "Hi", start_time := 0, end_time := 1, color := str "#E3F2FD" },
        { speaker := str "Speaker 1", speaker_id := str "GLOBAL_SPEAKER_00",
          text := str "there", start_time := 1, end_time := 2, color := str "#E3F2FD" },
        { speaker := str "Speaker 2", speaker_id := str "GLOBAL_SPEAKER_01",
          text := str "Hello", start_time := 2, end_time := 3, color := str "#FFF3E0" } ] }

/-- C9: consecutive same-speaker messages merge into one
"Speaker: merged text" paragraph with a blank line between speaker blocks
(on the spec's example this gives exactly two paragraphs with "Hi there"
merged); both exports are pure functions of the message log alone; and on a
session with no messages both return the empty string. -/
theorem claim_C9_export :
    exportTxt exportDemoSession = str "Speaker 1: Hi there\n\nSpeaker 2: Hello" ∧
    (∀ st : SessionState, st.messages = [] → exportTxt st = [] ∧ exportSrt st = []) ∧
    (∀ st st' : SessionState, st.messages = st'.messages →
      exportTxt st = exportTxt st' ∧ exportSrt st = exportSrt st') := by
  refine ⟨by decide, ?_, ?_⟩
  · intro st h
    constructor
    · simp [exportTxt, h, exportTxtLoop, List.intercalate]
    · simp [exportSrt, h, List.enumFrom, List.intercalate]
  · intro st st' h
    exact ⟨by simp [exportTxt, h], by simp [exportSrt, h]⟩

/-- C9 witness: the purity and empty-session conjuncts applied to concrete
sessions. -/
theorem claim_C9_export_witness :
    (exportTxt sessionP = [] ∧ exportSrt sessionP = []) ∧
    (exportTxt exportDemoSession = exportTxt exportDemoSession ∧
     exportSrt exportDemoSession = exportSrt exportDemoSession) :=
  ⟨claim_C9_export.2.1 sessionP rfl,
   claim_C9_export.2.2 exportDemoSession exportDemoSession rfl⟩

/-! ## C2: fallback trigger characterization -/

/-- A Python `set` built from a list has at most one element exactly when
all list elements are equal. -/
theorem dedup_length_le_one_iff {α : Type} [DecidableEq α] (l : List α) :
    l.dedup.length ≤ 1 ↔ ∀ a ∈ l, ∀ b ∈ l, a = b := by
  constructor
  · intro h a ha b hb
    have ha' : a ∈ l.dedup := List.mem_dedup.mpr ha
    have hb' : b ∈ l.dedup := List.mem_dedup.mpr hb
    cases hl : l.dedup with
    | nil => rw [hl] at ha'; exact absurd ha' (List.not_mem_nil a)
    | cons x t =>
      cases t with
      | nil =>
        rw [hl] at ha' hb'
        simp only [List.mem_singleton] at ha' hb'
        rw [ha', hb']
      | cons y t' => rw [hl] at h; simp at h
  · intro h
    cases hl : l.dedup with
    | nil => simp
    | cons x t =>
      cases t with
      | nil => simp
      | cons y t' =>
        exfalso
        have hx : x ∈ l := List.mem_dedup.mp (by rw [hl]; simp)
        have hy : y ∈ l := List.mem_dedup.mp (by rw [hl]; simp)
        have hnd := l.nodup_dedup
        rw [hl, List.nodup_cons] at hnd
        exact (by simpa using hnd.1 : ¬(x = y ∨ x ∈ t')) (Or.inl (h x hx y hy))

/-- C2: in every `process_audio_chunk` run, the local-diarization fallback
is invoked exactly when the active provider is the cloud provider
(Deepgram), diarization is enabled on the session, the provider returned
strictly more than one segment, and every returned segment carries the same
speaker label. -/
theorem claim_C2_fallback_trigger (O : Oracles) (st : SessionState)
    (result : TranscriptionResult) (t : ℚ) :
    (processAudioChunk O st result t).trace.fallbackInvoked = true ↔
      (st.provider_type = ProviderType.deepgram ∧ st.enable_diarization = true ∧
       1 < result.segments.length ∧
       ∀ a ∈ result.segments, ∀ b ∈ result.segments, a.speaker = b.speaker) := by
  by_cases hseg : result.segments = []
  · simp [processAudioChunk, hseg]
  · have htr : (processAudioChunk O st result t).trace.fallbackInvoked =
        (st.enable_diarization && needsLocalDiarization st result) := by
      simp [processAudioChunk, hseg]
    rw [htr]
    cases hp : st.provider_type with
    | parakeet => simp [needsLocalDiarization, hp]
    | deepgram =>
      cases he : st.enable_diarization with
      | false => simp [needsLocalDiarization, hp, he]
      | true =>
        by_cases hlen : result.segments.length ≤ 1
        · simp [needsLocalDiarization, hp, he, hlen]
        · by_cases hdis : 1 < ((result.segments.map (·.speaker)).dedup).length
          · have : ¬ ∀ a ∈ result.segments, ∀ b ∈ result.segments, a.speaker = b.speaker := by
              intro hall
              have : ((result.segments.map (·.speaker)).dedup).length ≤ 1 :=
                (dedup_length_le_one_iff _).mpr (by
                  intro x hx y hy
                  obtain ⟨a, ha, rfl⟩ := List.mem_map.mp hx
                  obtain ⟨b, hb, rfl⟩ := List.mem_map.mp hy
                  exact hall a ha b hb)
              omega
            simp [needsLocalDiarization, hp, he, hlen, hdis, this]
          · have hall : ∀ a ∈ result.segments, ∀ b ∈ result.segments, a.speaker = b.speaker := by
              have hle : ((result.segments.map (·.speaker)).dedup).length ≤ 1 := by omega
              have := (dedup_length_le_one_iff _).mp hle
              intro a ha b hb
              exact this _ (List.mem_map.mpr ⟨a, ha, rfl⟩) _ (List.mem_map.mpr ⟨b, hb, rfl⟩)
            constructor
            · intro _
              exact ⟨rfl, rfl, by omega, hall⟩
            · intro _
              have hneeds : needsLocalDiarization st result = true := by
                simp [needsLocalDiarization, hp, he, hlen, hdis]
              rw [hneeds]
              rfl

/-! ## C4 and C10: provider hot-swap -/

/-- A session that received a `config` message setting a non-default
similarity threshold. -/
def swapDemoBefore : SessionState :=
  handleConfigMessage sessionP { similarity_threshold := some (9 / 10) }

/-- The same session after a `config` message hot-swapping the provider to
Deepgram. -/
def swapDemoAfter : SessionState :=
  handleConfigMessage swapDemoBefore { provider := some ProviderType.deepgram }

/-- C4 counterexample: a hot-swap on a session whose similarity threshold
had been configured to 0.9 does change more than the provider/model
selection — the threshold silently snaps back to the default 0.45, so the
claim's "only the provider/model selection changes" is false on this
concrete swap. -/
theorem claim_C4_counterexample :
    swapDemoAfter.provider_type ≠ swapDemoBefore.provider_type ∧
    swapDemoBefore.embedding_similarity_threshold = 9 / 10 ∧
    swapDemoAfter.embedding_similarity_threshold = 9 / 20 ∧
    swapDemoAfter.embedding_similarity_threshold ≠
      swapDemoBefore.embedding_similarity_threshold := by
  refine ⟨by decide, rfl, rfl, ?_⟩
  show (9 : ℚ) / 20 ≠ 9 / 10
  norm_num

/-- C4 as amended: every executed hot-swap preserves the message list
(same messages, same order), the color assignments, the stored speaker
embeddings, the next-identity counter, the diarization flag and the session
id, and changes the provider/model selection — but it also resets the
similarity threshold to the default 0.45 and zeroes the time offset, since
the freshly-constructed session object does not carry those over. -/
theorem claim_C4_hot_swap_amended (st : SessionState) (p : ProviderType)
    (m : Option Str) (h : swapNeeded st p m = true) :
    (applyProviderChange st p m).messages = st.messages ∧
    (applyProviderChange st p m).speaker_color_map = st.speaker_color_map ∧
    (applyProviderChange st p m).speaker_embeddings = st.speaker_embeddings ∧
    (applyProviderChange st p m).next_global_speaker_id = st.next_global_speaker_id ∧
    (applyProviderChange st p m).enable_diarization = st.enable_diarization ∧
    (applyProviderChange st p m).session_id = st.session_id ∧
    (applyProviderChange st p m).provider_type = p ∧
    (applyProviderChange st p m).provider_config = newSwapConfig p m ∧
    (applyProviderChange st p m).embedding_similarity_threshold = 9 / 20 ∧
    (applyProviderChange st p m).time_offset = 0 := by
  simp [applyProviderChange, h, performProviderSwap, initSession]

/-- C4 amended witness: the swap of the demo session. -/
theorem claim_C4_hot_swap_amended_witness :
    (applyProviderChange swapDemoBefore ProviderType.deepgram none).messages =
        swapDemoBefore.messages ∧
    (applyProviderChange swapDemoBefore ProviderType.deepgram none).speaker_color_map =
        swapDemoBefore.speaker_color_map ∧
    (applyProviderChange swapDemoBefore ProviderType.deepgram none).speaker_embeddings =
        swapDemoBefore.speaker_embeddings ∧
    (applyProviderChange swapDemoBefore ProviderType.deepgram none).next_global_speaker_id =
        swapDemoBefore.next_global_speaker_id ∧
    (applyProviderChange swapDemoBefore ProviderType.deepgram none).enable_diarization =
        swapDemoBefore.enable_diarization ∧
    (applyProviderChange swapDemoBefore ProviderType.deepgram none).session_id =
        swapDemoBefore.session_id ∧
    (applyProviderChange swapDemoBefore ProviderType.deepgram none).provider_type =
        ProviderType.deepgram ∧
    (applyProviderChange swapDemoBefore ProviderType.deepgram none).provider_config =
        newSwapConfig ProviderType.deepgram none ∧
    (applyProviderChange swapDemoBefore ProviderType.deepgram none).embedding_similarity_threshold =
        9 / 20 ∧
    (applyProviderChange swapDemoBefore ProviderType.deepgram none).time_offset = 0 :=
  claim_C4_hot_swap_amended swapDemoBefore ProviderType.deepgram none (by decide)

/-- C10: a provider hot-swap does not carry a previously configured
non-default similarity threshold over — the swapped session is back at the
default 0.45 — while the diarization flag, the messages and both
speaker-tracking maps (colors and embeddings, plus the identity counter)
are carried over. -/
theorem claim_C10_threshold_reset (st : SessionState) (p : ProviderType)
    (m : Option Str) (h : swapNeeded st p m = true)
    (hnd : st.embedding_similarity_threshold ≠ 9 / 20) :
    (applyProviderChange st p m).embedding_similarity_threshold = 9 / 20 ∧
    (applyProviderChange st p m).embedding_similarity_threshold ≠
      st.embedding_similarity_threshold ∧
    (applyProviderChange st p m).enable_diarization = st.enable_diarization ∧
    (applyProviderChange st p m).messages = st.messages ∧
    (applyProviderChange st p m).speaker_color_map = st.speaker_color_map ∧
    (applyProviderChange st p m).speaker_embeddings = st.speaker_embeddings ∧
    (applyProviderChange st p m).next_global_speaker_id = st.next_global_speaker_id := by
  have hr : (applyProviderChange st p m).embedding_similarity_threshold = 9 / 20 := by
    simp [applyProviderChange, h, performProviderSwap, initSession]
  refine ⟨hr, ?_, ?_⟩
  · rw [hr]
    exact fun he => hnd he.symm
  · simp [applyProviderChange, h, performProviderSwap, initSession]

/-- C10 witness: the demo session with threshold 0.9 swapped to Deepgram. -/
theorem claim_C10_threshold_reset_witness :
    (applyProviderChange swapDemoBefore ProviderType.deepgram none).embedding_similarity_threshold =
        9 / 20 ∧
    (applyProviderChange swapDemoBefore ProviderType.deepgram none).embedding_similarity_threshold ≠
        swapDemoBefore.embedding_similarity_threshold ∧
    (applyProviderChange swapDemoBefore ProviderType.deepgram none).enable_diarization =
        swapDemoBefore.enable_diarization ∧
    (applyProviderChange swapDemoBefore ProviderType.deepgram none).messages =
        swapDemoBefore.messages ∧
    (applyProviderChange swapDemoBefore ProviderType.deepgram none).speaker_color_map =
        swapDemoBefore.speaker_color_map ∧
    (applyProviderChange swapDemoBefore ProviderType.deepgram none).speaker_embeddings =
        swapDemoBefore.speaker_embeddings ∧
    (applyProviderChange swapDemoBefore ProviderType.deepgram none).next_global_speaker_id =
        swapDemoBefore.next_global_speaker_id :=
  claim_C10_threshold_reset swapDemoBefore ProviderType.deepgram none (by decide)
    (by show (9 : ℚ) / 10 ≠ 9 / 20; norm_num)

/-! ## C5: which time range feeds the embedding extractor -/

/-- The per-group fold records exactly one extraction range per group: the
longest segment's own `(start, end)`. -/
theorem crossFold_calls (O : Oracles) :
    ∀ (groups : List (Str × List TranscriptionSegment))
      (acc : List (Str × Str) × SessionState × List (ℚ × ℚ)),
      (groups.foldl (crossChunkStep O) acc).2.2 =
        acc.2.2 ++ groups.map
          (fun g => ((longestSegment g.2).start, (longestSegment g.2).stop)) := by
  intro groups
  induction groups with
  | nil => intro acc; simp
  | cons g rest ih =>
    intro acc
    rw [List.foldl_cons, ih]
    simp [crossChunkStep]

/-- `longestSegment` really is an argmax of duration over a non-empty
group: it is one of the group's segments and no segment is longer. -/
theorem longestSegment_argmax (s : TranscriptionSegment)
    (rest : List TranscriptionSegment) :
    longestSegment (s :: rest) ∈ s :: rest ∧
    ∀ x ∈ s :: rest,
      x.stop - x.start ≤ (longestSegment (s :: rest)).stop - (longestSegment (s :: rest)).start := by
  have key : ∀ (l : List TranscriptionSegment) (a : TranscriptionSegment),
      (l.foldl (fun best x => if best.stop - best.start < x.stop - x.start then x else best) a
          ∈ a :: l) ∧
      (a.stop - a.start ≤
        (l.foldl (fun best x => if best.stop - best.start < x.stop - x.start then x else best) a).stop -
        (l.foldl (fun best x => if best.stop - best.start < x.stop - x.start then x else best) a).start) ∧
      ∀ x ∈ l,
        x.stop - x.start ≤
          (l.foldl (fun best x => if best.stop - best.start < x.stop - x.start then x else best) a).stop -
          (l.foldl (fun best x => if best.stop - best.start < x.stop - x.start then x else best) a).start := by
    intro l
    induction l with
    | nil => intro a; simp
    | cons x rest ih =>
      intro a
      rw [List.foldl_cons]
      obtain ⟨ihmem, ihle, ihall⟩ := ih (if a.stop - a.start < x.stop - x.start then x else a)
      refine ⟨?_, ?_, ?_⟩
      · rcases List.mem_cons.mp ihmem with h | h
        · rw [h]
          by_cases hc : a.stop - a.start < x.stop - x.start
          · simp [hc]
          · simp [hc]
        · exact List.mem_cons_of_mem _ (List.mem_cons_of_mem _ h)
      · by_cases hc : a.stop - a.start < x.stop - x.start
        · calc a.stop - a.start ≤ x.stop - x.start := le_of_lt hc
            _ ≤ _ := by rw [if_pos hc] at ihle ⊢; exact ihle
        · rw [if_neg hc] at ihle ⊢; exact ihle
      · intro y hy
        rcases List.mem_cons.mp hy with h | h
        · subst h
          by_cases hc : a.stop - a.start < y.stop - y.start
          · rw [if_pos hc] at ihle ⊢; exact ihle
          · calc y.stop - y.start ≤ a.stop - a.start := le_of_not_lt hc
              _ ≤ _ := by rw [if_neg hc] at ihle ⊢; exact ihle
        · exact ihall y h
  obtain ⟨hmem, hle, hall⟩ := key rest s
  refine ⟨by simpa [longestSegment] using hmem, ?_⟩
  intro x hx
  rcases List.mem_cons.mp hx with h | h
  · subst h; simpa [longestSegment] using hle
  · simpa [longestSegment] using hall x h

/-- C5 as amended: for every local-label group the embedding is extracted
over exactly the longest segment's own `(start, end)` range — a member of
the group of maximal duration — with no growing of the range when the
longest sub-segment is shorter than one second (the spec's grow-to-union
step does not exist in the code; extraction merely returns nothing for
ranges its helper deems too short). -/
theorem claim_C5_embedding_range_amended :
    (∀ (O : Oracles) (st : SessionState) (result : TranscriptionResult),
      (applyCrossChunkSpeakerTracking O st result).2.2 =
        (groupBySpeaker result.segments).map
          (fun g => ((longestSegment g.2).start, (longestSegment g.2).stop))) ∧
    (∀ (s : TranscriptionSegment) (rest : List TranscriptionSegment),
      longestSegment (s :: rest) ∈ s :: rest ∧
      ∀ x ∈ s :: rest,
        x.stop - x.start ≤
          (longestSegment (s :: rest)).stop - (longestSegment (s :: rest)).start) := by
  constructor
  · intro O st result
    show (((groupBySpeaker result.segments).foldl (crossChunkStep O) ([], st, []))).2.2 = _
    rw [crossFold_calls]
    simp
  · exact longestSegment_argmax

/-- C5 demo data: one local-label group whose longest sub-segment lasts
0.6 s (under one second) while the group spans `[0, 2.4]`. -/
def c5segA : TranscriptionSegment :=
  { text := str "a", start := 0, stop := mkRat 3 5, speaker := some (str "A") }

/-- Second segment of the C5 group (same label, later in time, shorter). -/
def c5segB : TranscriptionSegment :=
  { text := str "b", start := 2, stop := mkRat 12 5, speaker := some (str "A") }

/-- Provider result holding the C5 group. -/
def c5result : TranscriptionResult :=
  { segments := [c5segA, c5segB], full_text := str "a b" }

/-- C5 counterexample: on the demo group the longest sub-segment lasts
under one second, the spec-mandated grown range is the union `(0, 2.4)`,
but the code hands the extractor the longest segment's own `(0, 0.6)` —
the claim's under-one-second union-growing does not happen. -/
theorem claim_C5_counterexample :
    (applyCrossChunkSpeakerTracking oracleTrivial sessionP c5result).2.2 =
      [((0 : ℚ), mkRat 3 5)] ∧
    specEmbeddingRange [c5segA, c5segB] = ((0 : ℚ), mkRat 12 5) ∧
    (longestSegment [c5segA, c5segB]).stop - (longestSegment [c5segA, c5segB]).start < 1 ∧
    ((0 : ℚ), mkRat 3 5) ≠ ((0 : ℚ), mkRat 12 5) := by
  refine ⟨by with_unfolding_all decide, by with_unfolding_all decide,
    by with_unfolding_all decide, by with_unfolding_all decide⟩

/-- C5 amended witness: both conjuncts applied to the demo group. -/
theorem claim_C5_embedding_range_amended_witness :
    (applyCrossChunkSpeakerTracking oracleTrivial sessionP c5result).2.2 =
      (groupBySpeaker c5result.segments).map
        (fun g => ((longestSegment g.2).start, (longestSegment g.2).stop)) ∧
    longestSegment [c5segA, c5segB] ∈ [c5segA, c5segB] ∧
    c5segB.stop - c5segB.start ≤
      (longestSegment [c5segA, c5segB]).stop - (longestSegment [c5segA, c5segB]).start :=
  ⟨claim_C5_embedding_range_amended.1 oracleTrivial sessionP c5result,
   (claim_C5_embedding_range_amended.2 c5segA [c5segB]).1,
   (claim_C5_embedding_range_amended.2 c5segA [c5segB]).2 c5segB (by simp)⟩

/-! ## Decimal rendering round-trips through the digit parser -/

/-- The decimal digit characters parse back to their values. -/
theorem decDigit_digitChar : ∀ d < 10, decDigit? (digitChar d) = some d := by decide

/-- The ten digit characters occupy the ASCII range 48-57. -/
theorem digitChar_bounds : ∀ d < 10, 48 ≤ (digitChar d).toNat ∧ (digitChar d).toNat ≤ 57 := by
  decide

/-- Every character of a decimal rendering is an ASCII digit. -/
theorem natToDecAux_digits (n : ℕ) :
    ∀ c ∈ natToDecAux n, 48 ≤ c.toNat ∧ c.toNat ≤ 57 := by
  induction n using Nat.strong_induction_on with
  | _ n ih =>
    rw [natToDecAux]
    by_cases h : n < 10
    · simp only [dif_pos h, List.mem_singleton]
      intro c hc
      subst hc
      exact digitChar_bounds n h
    · simp only [dif_neg h]
      intro c hc
      rcases List.mem_append.mp hc with hc | hc
      · exact ih (n / 10) (Nat.div_lt_self (by omega) (by omega)) c hc
      · simp only [List.mem_singleton] at hc
        subst hc
        exact digitChar_bounds _ (Nat.mod_lt _ (by omega))

/-- Parsing distributes over concatenation. -/
theorem parseDecFrom_append (l1 : Str) :
    ∀ (a : ℕ) (l2 : Str),
      parseDecFrom a (l1 ++ l2) =
        match parseDecFrom a l1 with
        | some b => parseDecFrom b l2
        | none => none := by
  induction l1 with
  | nil => intro a l2; simp [parseDecFrom]
  | cons c rest ih =>
    intro a l2
    simp only [List.cons_append, parseDecFrom]
    cases decDigit? c with
    | some d => exact ih _ l2
    | none => rfl

/-- Parsing the decimal rendering of `n` after a prefix of value `a`
yields `a` shifted by the rendered width, plus `n`. -/
theorem parseDecFrom_natToDecAux (n : ℕ) :
    ∀ a : ℕ, parseDecFrom a (natToDecAux n) =
      some (a * 10 ^ (natToDecAux n).length + n) := by
  induction n using Nat.strong_induction_on with
  | _ n ih =>
    intro a
    rw [natToDecAux]
    by_cases h : n < 10
    · simp only [dif_pos h]
      simp [parseDecFrom, decDigit_digitChar n h]
      omega
    · simp only [dif_neg h]
      rw [parseDecFrom_append]
      rw [ih (n / 10) (Nat.div_lt_self (by omega) (by omega)) a]
      have h10 : n % 10 < 10 := Nat.mod_lt _ (by omega)
      simp only [parseDecFrom, decDigit_digitChar _ h10]
      have hlen : (natToDecAux (n / 10) ++ [digitChar (n % 10)]).length =
          (natToDecAux (n / 10)).length + 1 := by simp
      rw [hlen]
      congr 1
      have hsplit : 10 * (n / 10) + n % 10 = n := by omega
      calc 10 * (a * 10 ^ (natToDecAux (n / 10)).length + n / 10) + n % 10
          = a * (10 ^ (natToDecAux (n / 10)).length * 10) + (10 * (n / 10) + n % 10) := by ring
        _ = a * 10 ^ ((natToDecAux (n / 10)).length + 1) + n := by rw [pow_succ, hsplit]

/-- A decimal rendering is never empty. -/
theorem natToDecAux_ne_nil (n : ℕ) : natToDecAux n ≠ [] := by
  rw [natToDecAux]
  by_cases h : n < 10
  · simp [dif_pos h]
  · simp [dif_neg h]

/-- `int(str(n)) = n`. -/
theorem parseDec_natToDecAux (n : ℕ) : parseDec (natToDecAux n) = some n := by
  have h := parseDecFrom_natToDecAux n 0
  simp only [Nat.zero_mul, Nat.zero_add] at h
  cases haux : natToDecAux n with
  | nil => exact absurd haux (natToDecAux_ne_nil n)
  | cons c rest =>
    rw [haux] at h
    simpa [parseDec] using h

/-- `int(f"{n:02d}") = n`: the zero-padded rendering parses back too. -/
theorem parseDec_pad2chars (n : ℕ) : parseDec (pad2chars n) = some n := by
  unfold pad2chars
  by_cases h : n < 10
  · simp only [if_pos h]
    have h0 : decDigit? '0' = some 0 := by decide
    have h2 := parseDecFrom_natToDecAux n 0
    simp only [Nat.zero_mul, Nat.zero_add] at h2
    simp [parseDec, parseDecFrom, h0]
    simpa using h2
  · simp only [if_neg h]
    exact parseDec_natToDecAux n

/-- Distinct counter values mint distinct identity strings. -/
theorem globalSpeakerLabel_inj : Function.Injective globalSpeakerLabel := by
  intro m n h
  unfold globalSpeakerLabel at h
  have h2 : pad2chars m = pad2chars n := by
    have := List.append_cancel_left h
    exact this
  have hm := parseDec_pad2chars m
  rw [h2, parseDec_pad2chars n] at hm
  exact (Option.some.injEq _ _ ▸ hm).symm

/-! ## C3: the identity tracker's match/mint decision -/

/-- What the best-match scan can produce: starting from a non-negative
accumulator it never decreases, it dominates every scanned similarity, and
it is either untouched or holds some scanned identity together with its
(strictly positive) similarity. -/
theorem bestScan_spec (sim : Emb → Emb → ℚ) (emb : Emb) :
    ∀ (l : List (Str × Emb)) (b : Option Str × ℚ), 0 ≤ b.2 →
      b.2 ≤ (l.foldl (bestScanStep sim emb) b).2 ∧
      (∀ p ∈ l, sim emb p.2 ≤ (l.foldl (bestScanStep sim emb) b).2) ∧
      ((l.foldl (bestScanStep sim emb) b) = b ∨
        ∃ p ∈ l, (l.foldl (bestScanStep sim emb) b) = (some p.1, sim emb p.2) ∧
          0 < sim emb p.2) := by
  intro l
  induction l with
  | nil => intro b hb; simp
  | cons x rest ih =>
    intro b hb
    rw [List.foldl_cons]
    have hstep : 0 ≤ (bestScanStep sim emb b x).2 := by
      unfold bestScanStep
      by_cases hc : b.2 < sim emb x.2
      · simp only [if_pos hc]
        exact le_of_lt (lt_of_le_of_lt hb hc)
      · simpa [if_neg hc] using hb
    obtain ⟨ihmono, ihdom, ihchar⟩ := ih (bestScanStep sim emb b x) hstep
    have hbmono : b.2 ≤ (bestScanStep sim emb b x).2 := by
      unfold bestScanStep
      by_cases hc : b.2 < sim emb x.2
      · simp only [if_pos hc]; exact le_of_lt hc
      · simp [if_neg hc]
    have hxdom : sim emb x.2 ≤ (bestScanStep sim emb b x).2 := by
      unfold bestScanStep
      by_cases hc : b.2 < sim emb x.2
      · simp [if_pos hc]
      · simpa [if_neg hc] using le_of_not_lt hc
    refine ⟨le_trans hbmono ihmono, ?_, ?_⟩
    · intro p hp
      rcases List.mem_cons.mp hp with h | h
      · subst h; exact le_trans hxdom ihmono
      · exact ihdom p h
    · rcases ihchar with h | ⟨p, hp, heq, hpos⟩
      · rw [h]
        unfold bestScanStep
        by_cases hc : b.2 < sim emb x.2
        · simp only [if_pos hc]
          exact Or.inr ⟨x, List.mem_cons_self x rest,
            rfl, lt_of_le_of_lt hb hc⟩
        · simp only [if_neg hc]
          left
          trivial
      · exact Or.inr ⟨p, List.mem_cons_of_mem x hp, heq, hpos⟩

/-- If `_match_speaker_to_known` reports an identity, that identity is a
stored one, the reported similarity is its similarity, it clears the
threshold, it is strictly positive, and it dominates every stored
similarity. -/
theorem matchSpeaker_some_spec (sim : Emb → Emb → ℚ) (st : SessionState)
    (emb : Emb) (id : Str) (s : ℚ)
    (h : matchSpeakerToKnown sim st emb = (some id, s)) :
    ∃ v, (id, v) ∈ st.speaker_embeddings ∧ s = sim emb v ∧
      st.embedding_similarity_threshold ≤ s ∧ 0 < s ∧
      ∀ p ∈ st.speaker_embeddings, sim emb p.2 ≤ s := by
  unfold matchSpeakerToKnown at h
  by_cases he : st.speaker_embeddings = []
  · rw [if_pos he] at h
    exact absurd (congrArg Prod.fst h) (by simp)
  · rw [if_neg he] at h
    simp only at h
    obtain ⟨hmono, hdom, hchar⟩ :=
      bestScan_spec sim emb st.speaker_embeddings ((none : Option Str), (0 : ℚ)) (by simp)
    set best := st.speaker_embeddings.foldl (bestScanStep sim emb)
      ((none : Option Str), (0 : ℚ)) with hbest
    by_cases ht : st.embedding_similarity_threshold ≤ best.2
    · rw [if_pos ht] at h
      rcases hchar with hb | ⟨p, hp, heq, hpos⟩
      · rw [hb] at h
        exact absurd (congrArg Prod.fst h) (by simp)
      · have h1 : best.1 = some p.1 := by rw [heq]
        have h2 : best.2 = sim emb p.2 := by rw [heq]
        have hid : some p.1 = some id := by rw [← h1]; exact congrArg Prod.fst h
        have hs : sim emb p.2 = s := by rw [← h2]; exact congrArg Prod.snd h
        refine ⟨p.2, ?_, hs.symm, ?_, ?_, ?_⟩
        · have : (id, p.2) = p := by
            have : p.1 = id := Option.some.injEq _ _ ▸ hid
            cases p; simp_all
          rw [this]; exact hp
        · rw [← hs]; rw [← h2]; exact ht
        · rw [← hs]; exact hpos
        · intro q hq
          rw [← hs, ← h2]
          exact hdom q hq
    · rw [if_neg ht] at h
      exact absurd (congrArg Prod.fst h) (by simp)

/-- If `_match_speaker_to_known` reports no identity, every stored
similarity is either below the threshold or non-positive. -/
theorem matchSpeaker_none_spec (sim : Emb → Emb → ℚ) (st : SessionState)
    (emb : Emb) (s : ℚ)
    (h : matchSpeakerToKnown sim st emb = (none, s)) :
    ∀ p ∈ st.speaker_embeddings,
      sim emb p.2 < st.embedding_similarity_threshold ∨ sim emb p.2 ≤ 0 := by
  unfold matchSpeakerToKnown at h
  by_cases he : st.speaker_embeddings = []
  · rw [he]; simp
  · rw [if_neg he] at h
    simp only at h
    obtain ⟨hmono, hdom, hchar⟩ :=
      bestScan_spec sim emb st.speaker_embeddings ((none : Option Str), (0 : ℚ)) (by simp)
    set best := st.speaker_embeddings.foldl (bestScanStep sim emb)
      ((none : Option Str), (0 : ℚ)) with hbest
    by_cases ht : st.embedding_similarity_threshold ≤ best.2
    · rw [if_pos ht] at h
      rcases hchar with hb | ⟨p, hp, heq, hpos⟩
      · have hb2 : best.2 = 0 := by rw [hb]
        intro q hq
        right
        calc sim emb q.2 ≤ best.2 := hdom q hq
          _ = 0 := hb2
      · have : best.1 = some p.1 := by rw [heq]
        rw [this] at h
        exact absurd (congrArg Prod.fst h) (by simp)
    · rw [if_neg ht] at h
      intro q hq
      left
      calc sim emb q.2 ≤ best.2 := hdom q hq
        _ < st.embedding_similarity_threshold := lt_of_not_le ht

/-- C3 as amended: (match half) whenever the scan reports an identity —
which happens exactly when the best similarity clears the threshold AND is
strictly positive, since the scan starts at 0.0 with a strict comparison —
the tracker returns that stored identity, a maximal-similarity one, and
smooths its stored vector to exactly `0.8·old + 0.2·observed`; (mint half)
when every stored similarity is below the threshold the tracker mints
`GLOBAL_SPEAKER_{next}` with the next integer index, stores the observed
embedding under it, and the new identity string differs from every
previously minted one (all of which carry a smaller index). -/
theorem claim_C3_identity_tracker_amended :
    (∀ (sim : Emb → Emb → ℚ) (st : SessionState) (emb : Emb) (id : Str) (s : ℚ),
      matchSpeakerToKnown sim st emb = (some id, s) →
      (∃ v, (id, v) ∈ st.speaker_embeddings ∧ s = sim emb v ∧
        st.embedding_similarity_threshold ≤ s ∧ 0 < s ∧
        ∀ p ∈ st.speaker_embeddings, sim emb p.2 ≤ s) ∧
      getOrCreateGlobalSpeakerId sim st (some emb) =
        (id, { st with speaker_embeddings := aupdate st.speaker_embeddings id (fun old => smoothEmbedding old emb) })) ∧
    (∀ (sim : Emb → Emb → ℚ) (st : SessionState) (emb : Emb),
      (∀ p ∈ st.speaker_embeddings,
        sim emb p.2 < st.embedding_similarity_threshold) →
      getOrCreateGlobalSpeakerId sim st (some emb) =
        (globalSpeakerLabel st.next_global_speaker_id,
         { st with
            next_global_speaker_id := st.next_global_speaker_id + 1,
            speaker_embeddings := st.speaker_embeddings ++
              [(globalSpeakerLabel st.next_global_speaker_id, emb)] }) ∧
      ∀ m < st.next_global_speaker_id,
        globalSpeakerLabel st.next_global_speaker_id ≠ globalSpeakerLabel m) := by
  constructor
  · intro sim st emb id s h
    refine ⟨matchSpeaker_some_spec sim st emb id s h, ?_⟩
    unfold getOrCreateGlobalSpeakerId
    simp [h]
  · intro sim st emb hfresh
    constructor
    · unfold getOrCreateGlobalSpeakerId
      cases hm : (matchSpeakerToKnown sim st emb) with
      | mk o s =>
        cases o with
        | none => simp [hm, mintGlobalSpeakerId]
        | some id =>
          exfalso
          obtain ⟨v, hv, hs, hts, hpos, hdom⟩ := matchSpeaker_some_spec sim st emb id s hm
          have := hfresh (id, v) hv
          simp only at this
          rw [← hs] at this
          exact absurd hts (not_le_of_lt this)
    · intro m hm
      intro heq
      exact absurd (globalSpeakerLabel_inj heq) (by omega)

/-- `np.dot` on rational vectors; for unit-norm vectors this coincides with
the cosine similarity the session computes. -/
def dotQ (a b : Emb) : ℚ := (List.zipWith (· * ·) a b).sum

/-- C3 demo state: one stored identity whose vector is the unit vector
`[0, 1]`, and a session whose `config` message set `similarity_threshold`
to 0 (the handler accepts any float). -/
def c3state : SessionState :=
  { sessionP with
    speaker_embeddings := [(globalSpeakerLabel 0, [0, 1])],
    next_global_speaker_id := 1,
    embedding_similarity_threshold := 0 }

/-- C3 counterexample: the observed unit vector `[1, 0]` has cosine
similarity exactly 0 to the only known identity, which is `≥` the session's
threshold 0 — yet the tracker mints the brand-new `GLOBAL_SPEAKER_01`
instead of reusing `GLOBAL_SPEAKER_00`, because the best-match scan starts
at 0.0 and only moves on strictly larger similarity. -/
theorem claim_C3_counterexample :
    dotQ [1, 0] [0, 1] = 0 ∧
    c3state.embedding_similarity_threshold ≤ dotQ [1, 0] [0, 1] ∧
    c3state.speaker_embeddings = [(globalSpeakerLabel 0, [0, 1])] ∧
    (getOrCreateGlobalSpeakerId dotQ c3state (some [1, 0])).1 = globalSpeakerLabel 1 ∧
    (getOrCreateGlobalSpeakerId dotQ c3state (some [1, 0])).1 ≠ globalSpeakerLabel 0 := by
  refine ⟨by with_unfolding_all decide, by with_unfolding_all decide, rfl,
    by with_unfolding_all decide, by with_unfolding_all decide⟩

/-- C3 demo state for the match half: one stored identity with vector
`[1, 0]` at the default threshold 0.45. -/
def c3matchState : SessionState :=
  { sessionP with
    speaker_embeddings := [(globalSpeakerLabel 0, [1, 0])],
    next_global_speaker_id := 1 }

/-- C3 amended witness: the match half on a similarity-1 observation and
the mint half on a fresh session. -/
theorem claim_C3_identity_tracker_amended_witness :
    ((∃ v, (globalSpeakerLabel 0, v) ∈ c3matchState.speaker_embeddings ∧
        (1 : ℚ) = dotQ [1, 0] v ∧
        c3matchState.embedding_similarity_threshold ≤ 1 ∧ (0 : ℚ) < 1 ∧
        ∀ p ∈ c3matchState.speaker_embeddings, dotQ [1, 0] p.2 ≤ 1) ∧
      getOrCreateGlobalSpeakerId dotQ c3matchState (some [1, 0]) =
        (globalSpeakerLabel 0,
         { c3matchState with speaker_embeddings := aupdate c3matchState.speaker_embeddings (globalSpeakerLabel 0) (fun old => smoothEmbedding old [1, 0]) })) ∧
    (getOrCreateGlobalSpeakerId dotQ sessionP (some [1, 0]) =
        (globalSpeakerLabel 0,
         { sessionP with
            next_global_speaker_id := 1,
            speaker_embeddings := [(globalSpeakerLabel 0, [1, 0])] }) ∧
      ∀ m < sessionP.next_global_speaker_id,
        globalSpeakerLabel sessionP.next_global_speaker_id ≠ globalSpeakerLabel m) :=
  ⟨claim_C3_identity_tracker_amended.1 dotQ c3matchState [1, 0] (globalSpeakerLabel 0) 1
      (by with_unfolding_all decide),
   claim_C3_identity_tracker_amended.2 dotQ sessionP [1, 0] (by simp [sessionP, initSession])⟩

/-! ## C6: colors and display names -/

/-- Splitting never produces an empty group list. -/
theorem splitOnPred_ne_nil (p : Char → Bool) (l : Str) : splitOnPred p l ≠ [] := by
  induction l with
  | nil => simp [splitOnPred]
  | cons c rest ih =>
    unfold splitOnPred
    by_cases hc : p c
    · simp [hc]
    · simp only [hc]
      cases h : splitOnPred p rest with
      | nil => simp
      | cons g gs => simp

/-- A separator-free string splits into itself alone. -/
theorem splitOnPred_no_sep (p : Char → Bool) (l : Str)
    (h : ∀ c ∈ l, p c = false) : splitOnPred p l = [l] := by
  induction l with
  | nil => rfl
  | cons c rest ih =>
    have hc : p c = false := h c (List.mem_cons_self c rest)
    unfold splitOnPred
    rw [hc]
    simp only [Bool.false_eq_true, if_false]
    rw [ih (fun x hx => h x (List.mem_cons_of_mem c hx))]

/-- A string containing a separator splits into at least two groups. -/
theorem splitOnPred_two_groups (p : Char → Bool) :
    ∀ l : Str, (∃ c ∈ l, p c = true) → 2 ≤ (splitOnPred p l).length := by
  intro l
  induction l with
  | nil => rintro ⟨c, hc, -⟩; exact absurd hc (List.not_mem_nil c)
  | cons c rest ih =>
    rintro ⟨x, hx, hpx⟩
    unfold splitOnPred
    by_cases hc : p c
    · simp only [hc, if_true, List.length_cons]
      have := splitOnPred_ne_nil p rest
      have : 1 ≤ (splitOnPred p rest).length := by
        cases h : splitOnPred p rest with
        | nil => exact absurd h this
        | cons g gs => simp
      omega
    · have hxr : x ∈ rest := by
        rcases List.mem_cons.mp hx with h | h
        · subst h; exact absurd hpx (by simp [hc])
        · exact h
      have h2 := ih ⟨x, hxr, hpx⟩
      simp only [hc]
      cases h : splitOnPred p rest with
      | nil => exact absurd h (splitOnPred_ne_nil p rest)
      | cons g gs =>
        rw [h] at h2
        simpa using h2

/-- When the tail is non-empty the default of `getLastD` is irrelevant. -/
theorem getLastD_irrel {α : Type} (gs : List α) (hne : gs ≠ []) (a b : α) :
    gs.getLastD a = gs.getLastD b := by
  cases gs with
  | nil => exact absurd rfl hne
  | cons x xs => simp [List.getLastD]

/-- The last group of a split of `l1 ++ sep :: l2`, with `l2` free of
separators, is `l2` (Python `s.split("_")[-1]`). -/
theorem splitOnPred_last_after_sep (p : Char → Bool) (sep : Char)
    (hsep : p sep = true) (l2 : Str) (h2 : ∀ c ∈ l2, p c = false) :
    ∀ (l1 : Str) (d : Str), (splitOnPred p (l1 ++ sep :: l2)).getLastD d = l2 := by
  intro l1
  induction l1 with
  | nil =>
    intro d
    simp only [List.nil_append]
    unfold splitOnPred
    rw [hsep]
    simp only [if_true]
    rw [splitOnPred_no_sep p l2 h2]
    simp [List.getLastD]
  | cons c l1 ih =>
    intro d
    simp only [List.cons_append]
    unfold splitOnPred
    by_cases hc : p c
    · simp only [hc, if_true]
      rw [List.getLastD_cons]
      exact ih []
    · simp only [hc]
      cases h : splitOnPred p (l1 ++ sep :: l2) with
      | nil => exact absurd h (splitOnPred_ne_nil p _)
      | cons g gs =>
        have hgs : gs ≠ [] := by
          have hlen := splitOnPred_two_groups p (l1 ++ sep :: l2)
            ⟨sep, by simp, hsep⟩
          rw [h] at hlen
          intro hnil
          rw [hnil] at hlen
          simp at hlen
        simp only [Bool.false_eq_true, if_false]
        rw [List.getLastD_cons]
        have hih := ih d
        rw [h, List.getLastD_cons] at hih
        rw [getLastD_irrel gs hgs (c :: g) g]
        exact hih

/-- The underscore is not a digit and `pad2chars` is all digits. -/
theorem pad2chars_no_underscore (n : ℕ) :
    ∀ c ∈ pad2chars n, (fun c => decide (c = '_')) c = false := by
  intro c hc
  have hd : 48 ≤ c.toNat ∧ c.toNat ≤ 57 := by
    unfold pad2chars at hc
    by_cases h : n < 10
    · rw [if_pos h] at hc
      rcases List.mem_cons.mp hc with h0 | h0
      · subst h0; decide
      · exact natToDecAux_digits n c h0
    · rw [if_neg h] at hc
      exact natToDecAux_digits n c hc
  have : c ≠ '_' := by
    intro he
    subst he
    revert hd
    decide
  simp [this]

/-- `int(speaker_id.split("_")[-1])` recovers the counter from a
`GLOBAL_SPEAKER_{nn}` identity string. -/
theorem parseSpeakerNum_label (n : ℕ) :
    parseSpeakerNum (globalSpeakerLabel n) = some n := by
  unfold parseSpeakerNum globalSpeakerLabel
  have hform : str "GLOBAL_SPEAKER_" ++ pad2chars n =
      str "GLOBAL_SPEAKER" ++ '_' :: pad2chars n := by
    have : str "GLOBAL_SPEAKER_" = str "GLOBAL_SPEAKER" ++ ['_'] := by decide
    rw [this, List.append_assoc]
    rfl
  rw [hform]
  rw [splitOnPred_last_after_sep (fun c => decide (c = '_')) '_' (by decide)
    (pad2chars n) (pad2chars_no_underscore n) (str "GLOBAL_SPEAKER")]
  exact parseDec_pad2chars n

/-- A list is a `isPrefixOf` of itself extended. -/
theorem isPrefixOf_append_self (l1 l2 : Str) : l1.isPrefixOf (l1 ++ l2) = true := by
  induction l1 with
  | nil => simp [List.isPrefixOf]
  | cons a rest ih => simp [List.isPrefixOf, ih]

/-- The display name of a tracker identity `GLOBAL_SPEAKER_{n}` is always
`"Speaker {n+1}"`, whatever the session state. -/
theorem getSpeakerName_label (st : SessionState) (n : ℕ) :
    (getSpeakerName st (globalSpeakerLabel n)).1 =
      str "Speaker " ++ natToDecAux (n + 1) := by
  unfold getSpeakerName
  have hpre : (str "GLOBAL_SPEAKER_").isPrefixOf (globalSpeakerLabel n) = true := by
    unfold globalSpeakerLabel
    exact isPrefixOf_append_self _ _
  simp only [hpre, if_true, parseSpeakerNum_label]

/-- First lookup of an unseen id appends `(id, palette[len % 8])`. -/
theorem getSpeakerColor_fresh (st : SessionState) (id : Str)
    (h : alookup st.speaker_color_map id = none) :
    (getSpeakerColor st id).1 =
      SPEAKER_COLORS.getD (st.speaker_color_map.length % SPEAKER_COLORS.length) [] ∧
    (getSpeakerColor st id).2.speaker_color_map =
      st.speaker_color_map ++ [(id, (getSpeakerColor st id).1)] := by
  unfold getSpeakerColor
  rw [h]
  exact ⟨rfl, rfl⟩

/-- Unfolding equation of `alookup` on a cons cell. -/
theorem alookup_cons {α : Type} (k' : Str) (v : α) (rest : List (Str × α)) (key : Str) :
    alookup ((k', v) :: rest) key = if k' = key then some v else alookup rest key := rfl

/-- Lookups fall through an unmatched prefix. -/
theorem alookup_append_of_none {α : Type} (l l' : List (Str × α)) (k : Str)
    (h : alookup l k = none) : alookup (l ++ l') k = alookup l' k := by
  induction l with
  | nil => simp
  | cons p rest ih =>
    obtain ⟨k', v⟩ := p
    by_cases hk : k' = k
    · rw [alookup_cons, if_pos hk] at h
      exact absurd h (by simp)
    · rw [alookup_cons, if_neg hk] at h
      rw [List.cons_append, alookup_cons, if_neg hk]
      exact ih h

/-- A hit in the color map returns the stored color without mutation. -/
theorem getSpeakerColor_hit (st : SessionState) (id : Str) (c : Str)
    (h : alookup st.speaker_color_map id = some c) :
    getSpeakerColor st id = (c, st) := by
  unfold getSpeakerColor
  rw [h]

/-- Color lookups are idempotent: the second lookup returns the assigned
color and leaves the state unchanged. -/
theorem getSpeakerColor_idem (st : SessionState) (id : Str) :
    getSpeakerColor (getSpeakerColor st id).2 id =
      ((getSpeakerColor st id).1, (getSpeakerColor st id).2) := by
  cases h : alookup st.speaker_color_map id with
  | some c =>
    have h1 : getSpeakerColor st id = (c, st) := getSpeakerColor_hit st id c h
    rw [h1]
    exact h1
  | none =>
    have hfresh := getSpeakerColor_fresh st id h
    have hlook : alookup (getSpeakerColor st id).2.speaker_color_map id =
        some (getSpeakerColor st id).1 := by
      rw [hfresh.2, alookup_append_of_none _ _ _ h, alookup_cons, if_pos rfl]
    have h2 := getSpeakerColor_hit (getSpeakerColor st id).2 id
      (getSpeakerColor st id).1 hlook
    rw [h2]

/-- C6 as amended: the palette has eight entries; the Nth distinct speaker
id to be *registered in the color map* (i.e. first looked up while
rendering a message) receives `palette[(N-1) mod 8]`, and repeated lookups
return the same color without further mutation; the display name of the
tracker's Nth created identity `GLOBAL_SPEAKER_{N-1}` is always
`"Speaker N"`, idempotently. Registration order coincides with creation
order only when every created identity actually reaches the message loop
in creation order — an identity whose segments all clean to empty text has
its registration deferred, which is what breaks the original claim. -/
theorem claim_C6_color_name_amended :
    SPEAKER_COLORS.length = 8 ∧
    (∀ (st : SessionState) (id : Str), alookup st.speaker_color_map id = none →
      (getSpeakerColor st id).1 =
        SPEAKER_COLORS.getD (st.speaker_color_map.length % 8) [] ∧
      (getSpeakerColor st id).2.speaker_color_map =
        st.speaker_color_map ++ [(id, (getSpeakerColor st id).1)]) ∧
    (∀ (st : SessionState) (id : Str),
      getSpeakerColor (getSpeakerColor st id).2 id =
        ((getSpeakerColor st id).1, (getSpeakerColor st id).2)) ∧
    (∀ (st : SessionState) (n : ℕ),
      (getSpeakerName st (globalSpeakerLabel n)).1 =
        str "Speaker " ++ natToDecAux (n + 1)) := by
  refine ⟨by decide, ?_, getSpeakerColor_idem, getSpeakerName_label⟩
  intro st id h
  have h8 : SPEAKER_COLORS.length = 8 := by decide
  have := getSpeakerColor_fresh st id h
  rw [h8] at this
  exact this

/-- C6 amended witness: fresh registration on an empty map, idempotence,
and the name of the third created identity. -/
theorem claim_C6_color_name_amended_witness :
    (getSpeakerColor sessionP (str "GLOBAL_SPEAKER_00")).1 =
      SPEAKER_COLORS.getD (sessionP.speaker_color_map.length % 8) [] ∧
    (getSpeakerColor sessionP (str "GLOBAL_SPEAKER_00")).2.speaker_color_map =
      sessionP.speaker_color_map ++
        [(str "GLOBAL_SPEAKER_00", (getSpeakerColor sessionP (str "GLOBAL_SPEAKER_00")).1)] ∧
    getSpeakerColor (getSpeakerColor sessionP (str "GLOBAL_SPEAKER_00")).2
        (str "GLOBAL_SPEAKER_00") =
      ((getSpeakerColor sessionP (str "GLOBAL_SPEAKER_00")).1,
       (getSpeakerColor sessionP (str "GLOBAL_SPEAKER_00")).2) ∧
    (getSpeakerName sessionP (globalSpeakerLabel 2)).1 = str "Speaker " ++ natToDecAux 3 :=
  ⟨(claim_C6_color_name_amended.2.1 sessionP (str "GLOBAL_SPEAKER_00") rfl).1,
   (claim_C6_color_name_amended.2.1 sessionP (str "GLOBAL_SPEAKER_00") rfl).2,
   claim_C6_color_name_amended.2.2.1 sessionP (str "GLOBAL_SPEAKER_00"),
   claim_C6_color_name_amended.2.2.2 sessionP 2⟩

/-- Embedding oracle for the C6 counterexample chunks: the `[0, 2]` range
of the chunk audio carries the unit voice-print `[1, 0]`, the `[2, 4]`
range the orthogonal `[0, 1]`. -/
def c6oracle : Oracles :=
  { sim := dotQ,
    extractEmbedding := fun s e =>
      if s = 0 ∧ e = 2 then some [1, 0]
      else if s = 2 ∧ e = 4 then some [0, 1]
      else none,
    localDiarize := none }

/-- First C6 chunk: local speaker A's only segment cleans to empty text
(the provider emitted no words for it), local speaker B says "hi". -/
def c6chunk1 : TranscriptionResult :=
  { segments :=
      [ { text := [], start := 0, stop := 2, speaker := some (str "A") },
        { text := str "hi", start := 2, stop := 4, speaker := some (str "B") } ],
    full_text := str "hi" }

/-- Second C6 chunk: speaker A (same voice as before) says "yo". -/
def c6chunk2 : TranscriptionResult :=
  { segments := [ { text := str "yo", start := 0, stop := 2, speaker := some (str "A") } ],
    full_text := str "yo" }

/-- Session state after the first C6 chunk. -/
def c6state1 : SessionState := (processAudioChunk c6oracle sessionP c6chunk1 0).state

/-- Session state after the second C6 chunk. -/
def c6state2 : SessionState := (processAudioChunk c6oracle c6state1 c6chunk2 4).state

/-- C6 counterexample: in the first chunk the tracker creates
`GLOBAL_SPEAKER_00` first and `GLOBAL_SPEAKER_01` second (the counter ends
at 2 with the keys stored in that order), but speaker A's only segment is
skipped for empty text, so `GLOBAL_SPEAKER_01` grabs `palette[0]`; when
the first-created identity finally speaks in chunk two it receives
`palette[1]` — not `palette[(1-1) mod 8]` as the claim requires (its name,
"Speaker 1", is still correct). -/
theorem claim_C6_counterexample :
    c6state1.next_global_speaker_id = 2 ∧
    c6state1.speaker_embeddings.map Prod.fst =
      [globalSpeakerLabel 0, globalSpeakerLabel 1] ∧
    alookup c6state2.speaker_color_map (globalSpeakerLabel 0) =
      some (SPEAKER_COLORS.getD 1 []) ∧
    SPEAKER_COLORS.getD 1 [] ≠ SPEAKER_COLORS.getD 0 [] ∧
    (getSpeakerName c6state2 (globalSpeakerLabel 0)).1 = str "Speaker 1" := by
  refine ⟨by with_unfolding_all decide, by with_unfolding_all decide,
    by with_unfolding_all decide, by with_unfolding_all decide,
    by with_unfolding_all decide⟩

/-! ## C1: strict arrival-order publication -/

/-- The conservation invariant of the worker system: the ghost arrival log
is exactly the published results, followed by the in-flight chunk, followed
by the still-queued chunks — one FIFO, one worker, no reordering. -/
theorem worker_invariant : ∀ st : WorkerState, WorkerReachable st →
    st.enqueued = publishedChunks st ++ inFlight st.pc ++ queuedChunks st := by
  intro st h
  induction h with
  | refl => rfl
  | tail _ step ih =>
    cases step with
    | add_chunk c hr =>
      simp only [publishedChunks, queuedChunks] at ih ⊢
      simp only [List.filterMap_append, List.filterMap_cons, List.filterMap_nil, id]
      rw [ih]
      simp [List.append_assoc]
    | stop hr =>
      simp only [publishedChunks, queuedChunks] at ih ⊢
      simp only [List.filterMap_append, List.filterMap_cons, List.filterMap_nil, id]
      rw [ih]
      simp
    | check_true hr hpc =>
      simp only [publishedChunks, queuedChunks] at ih ⊢
      rw [hpc] at ih
      simpa [inFlight] using ih
    | check_false hr hpc =>
      simp only [publishedChunks, queuedChunks] at ih ⊢
      rw [hpc] at ih
      simpa [inFlight] using ih
    | get_empty hpc hq =>
      simp only [publishedChunks, queuedChunks] at ih ⊢
      rw [hpc] at ih
      simpa [inFlight] using ih
    | get_sentinel rest hpc hq =>
      simp only [publishedChunks, queuedChunks] at ih ⊢
      rw [hpc, hq] at ih
      simpa [inFlight] using ih
    | get_chunk c rest hpc hq =>
      simp only [publishedChunks, queuedChunks] at ih ⊢
      rw [hpc, hq] at ih
      simp only [inFlight, List.filterMap_cons] at ih ⊢
      simpa using ih
    | publish c ok hpc =>
      simp only [publishedChunks, queuedChunks] at ih ⊢
      rw [hpc] at ih
      simp only [inFlight, List.map_append] at ih ⊢
      simp only [List.map_cons, List.map_nil]
      rw [ih]
      simp

/-- C1: in every reachable state of the interleaved receive-loop/worker
system — whatever the provider latencies, modelled by arbitrary
interleavings while a chunk is in flight — the per-chunk result events
published so far form an initial run of the arrival log: chunks are
published in exactly enqueue order 1..N, each result going out before the
next chunk is dequeued (the single worker holds at most the one in-flight
chunk between the two). -/
theorem claim_C1_ordering (st : WorkerState) (h : WorkerReachable st) :
    ∃ t, publishedChunks st ++ t = st.enqueued := by
  refine ⟨inFlight st.pc ++ queuedChunks st, ?_⟩
  rw [← List.append_assoc]
  exact (worker_invariant st h).symm

/-- Intermediate states of the C1 witness trace: after the first enqueue. -/
def c1s1 : WorkerState :=
  { running := true, queue := [some 1], pc := WorkerPC.loopTop,
    events := [], enqueued := [1] }

/-- C1 trace after the second enqueue. -/
def c1s2 : WorkerState :=
  { running := true, queue := [some 1, some 2], pc := WorkerPC.loopTop,
    events := [], enqueued := [1, 2] }

/-- C1 trace after the running check. -/
def c1s3 : WorkerState :=
  { running := true, queue := [some 1, some 2], pc := WorkerPC.getItem,
    events := [], enqueued := [1, 2] }

/-- C1 trace with chunk 1 in flight. -/
def c1s4 : WorkerState :=
  { running := true, queue := [some 2], pc := WorkerPC.processing 1,
    events := [], enqueued := [1, 2] }

/-- C1 trace after chunk 1's result is published. -/
def c1s5 : WorkerState :=
  { running := true, queue := [some 2], pc := WorkerPC.loopTop,
    events := [(1, true)], enqueued := [1, 2] }

/-- C1 witness: the ordering theorem applied to the end of that trace; the
published list `[1]` is an initial run of the arrival log `[1, 2]`. -/
theorem claim_C1_ordering_witness :
    ∃ t, publishedChunks c1s5 ++ t = ([1, 2] : List ℕ) := by
  have h1 : WorkerStep workerInit c1s1 := WorkerStep.add_chunk workerInit 1 rfl
  have h2 : WorkerStep c1s1 c1s2 := WorkerStep.add_chunk c1s1 2 rfl
  have h3 : WorkerStep c1s2 c1s3 := WorkerStep.check_true c1s2 rfl rfl
  have h4 : WorkerStep c1s3 c1s4 := WorkerStep.get_chunk c1s3 1 [some 2] rfl rfl
  have h5 : WorkerStep c1s4 c1s5 := WorkerStep.publish c1s4 1 true rfl
  exact claim_C1_ordering c1s5
    (((((Relation.ReflTransGen.refl.tail h1).tail h2).tail h3).tail h4).tail h5)

/-! ## C8: shutdown semantics -/

/-- State of the C8 race just before the stop signal: chunk 1 is queued and
unstarted, the worker has passed its `while self.running` check and is
about to call `queue.get`. -/
def c8s2 : WorkerState :=
  { running := true, queue := [some 1], pc := WorkerPC.getItem,
    events := [], enqueued := [1] }

/-- State just after `stop()`: the running flag is cleared and the sentinel
sits behind the still-queued chunk 1. -/
def c8s3 : WorkerState :=
  { running := false, queue := [some 1, none], pc := WorkerPC.getItem,
    events := [], enqueued := [1] }

/-- C8 race with chunk 1 in flight after the stop signal. -/
def c8s4 : WorkerState :=
  { running := false, queue := [none], pc := WorkerPC.processing 1,
    events := [], enqueued := [1] }

/-- Final state of the C8 race: the worker dequeued and published chunk 1
after the stop signal, then parked. -/
def c8s5 : WorkerState :=
  { running := false, queue := [none], pc := WorkerPC.loopTop,
    events := [(1, true)], enqueued := [1] }

/-- C8 counterexample: a reachable interleaving in which, at the moment of
the stop signal (the step from `c8s2` to `c8s3`), chunk 1 is enqueued but
not started — nothing is in flight and nothing has been published — and
yet the continuation publishes chunk 1's transcription event: the worker
had already passed its running check, so `queue.get` hands it the chunk
ahead of the sentinel. The claim's "discarded without any event" is false
for this chunk. -/
theorem claim_C8_counterexample :
    WorkerReachable c8s2 ∧
    WorkerStep c8s2 c8s3 ∧
    c8s2.pc = WorkerPC.getItem ∧ c8s2.queue = [some 1] ∧ c8s2.events = [] ∧
    Relation.ReflTransGen WorkerStep c8s3 c8s5 ∧
    publishedChunks c8s5 = [1] := by
  refine ⟨?_, ?_, rfl, rfl, rfl, ?_, rfl⟩
  · have h1 : WorkerStep workerInit c1s1 := WorkerStep.add_chunk workerInit 1 rfl
    have h2 : WorkerStep c1s1 c8s2 := WorkerStep.check_true c1s1 rfl rfl
    exact (Relation.ReflTransGen.refl.tail h1).tail h2
  · exact WorkerStep.stop c8s2 rfl
  · have h4 : WorkerStep c8s3 c8s4 := WorkerStep.get_chunk c8s3 1 [none] rfl rfl
    have h5 : WorkerStep c8s4 c8s5 := WorkerStep.publish c8s4 1 true rfl
    exact (Relation.ReflTransGen.refl.tail h4).tail h5

/-- How many more result events a stopped worker can still publish, by
program counter: one for an in-flight chunk, one for the single chunk a
`queue.get` already past the running check may hand it, none otherwise. -/
def stopBound : WorkerPC → ℕ
  | WorkerPC.processing _ => 1
  | WorkerPC.getItem => 1
  | _ => 0

/-- After the stop signal each step keeps the flag cleared and never
increases `events.length + stopBound pc`. -/
theorem stopped_step_bound (a b : WorkerState) (ha : a.running = false)
    (hstep : WorkerStep a b) :
    b.running = false ∧
    b.events.length + stopBound b.pc ≤ a.events.length + stopBound a.pc := by
  cases hstep with
  | add_chunk c hr => rw [ha] at hr; exact absurd hr (by simp)
  | stop hr => rw [ha] at hr; exact absurd hr (by simp)
  | check_true hr hpc => rw [ha] at hr; exact absurd hr (by simp)
  | check_false hr hpc => exact ⟨ha, by rw [hpc]; simp [stopBound]⟩
  | get_empty hpc hq => exact ⟨ha, by rw [hpc]; simp [stopBound]⟩
  | get_sentinel rest hpc hq => exact ⟨ha, by rw [hpc]; simp [stopBound]⟩
  | get_chunk c rest hpc hq => exact ⟨ha, by rw [hpc]; simp [stopBound]⟩
  | publish c ok hpc => exact ⟨ha, by rw [hpc]; simp [stopBound]⟩

/-- C8 as amended: once the worker is signaled to stop, (bound half) every
continuation publishes at most `stopBound` further results — at most the
one in-flight chunk, or at most the one chunk a `queue.get` already past
the running check can still grab; every other enqueued-but-unstarted chunk
is discarded without any transcription or error event — and (in-flight
half) a chunk that is mid-processing at the stop signal can always run to
completion and publish its result before the worker halts. -/
theorem claim_C8_stop_amended :
    (∀ a b : WorkerState, a.running = false →
      Relation.ReflTransGen WorkerStep a b →
      b.events.length ≤ a.events.length + stopBound a.pc) ∧
    (∀ (a : WorkerState) (c : ℕ), a.running = false → a.pc = WorkerPC.processing c →
      ∃ b : WorkerState, Relation.ReflTransGen WorkerStep a b ∧
        b.events = a.events ++ [(c, true)] ∧ b.pc = WorkerPC.halted) := by
  constructor
  · intro a b ha hr
    have key : b.running = false ∧
        b.events.length + stopBound b.pc ≤ a.events.length + stopBound a.pc := by
      induction hr with
      | refl => exact ⟨ha, le_refl _⟩
      | tail _ step ih =>
        obtain ⟨hrun, hle⟩ := ih
        obtain ⟨hrun', hle'⟩ := stopped_step_bound _ _ hrun step
        exact ⟨hrun', le_trans hle' hle⟩
    omega
  · intro a c ha hpc
    refine ⟨{ a with pc := WorkerPC.halted, events := a.events ++ [(c, true)] }, ?_, rfl, rfl⟩
    exact (Relation.ReflTransGen.refl.tail
      (WorkerStep.publish a c true hpc)).tail
      (WorkerStep.check_false _ ha rfl)

/-- C8 amended witness: the bound applied to the raced run (one message
published after the stop, within the allowed bound of one), and the
in-flight half applied to a stopped worker processing chunk 7. -/
theorem claim_C8_stop_amended_witness :
    c8s5.events.length ≤ c8s3.events.length + stopBound c8s3.pc ∧
    ∃ b : WorkerState,
      Relation.ReflTransGen WorkerStep
        { running := false, queue := [], pc := WorkerPC.processing 7,
          events := [], enqueued := [7] } b ∧
      b.events = [(7, true)] ∧ b.pc = WorkerPC.halted :=
  ⟨claim_C8_stop_amended.1 c8s3 c8s5 rfl
      ((Relation.ReflTransGen.refl.tail
        (show WorkerStep c8s3 c8s4 from WorkerStep.get_chunk c8s3 1 [none] rfl rfl)).tail
        (show WorkerStep c8s4 c8s5 from WorkerStep.publish c8s4 1 true rfl)),
   claim_C8_stop_amended.2
      { running := false, queue := [], pc := WorkerPC.processing 7,
        events := [], enqueued := [7] } 7 rfl rfl⟩
